import Mathlib

/-!
Shallow embedding of the Flask todo API in `src/app.py`.

The mutable module-level state (`TODOS`, a Python dict from id to todo
dict, and the counter `NEXT_ID`) is modelled by the structure `Store`:
`todos` is the list of stored tasks in dict insertion order (Python dicts
preserve insertion order; assigning to an existing key keeps its slot,
assigning a fresh key appends) and `nextId` is the counter.

Request-body scalars are modelled by `JVal`; Python's `bool(x)` truthiness
is `pyBool` and `int(x)` is `pyInt`, where `none` models the call raising
(an unhandled exception, surfaced by Flask as HTTP 500).  `title` values
are modelled as `Option String`: `none` stands for an absent key (or JSON
null), and the code's `if not title` check rejects exactly `none` and the
empty string.

Each HTTP handler becomes a function from its parsed arguments and the
store to a result paired with the updated store.  Error responses are the
constructors of `Err`: `notFound` is a 404, `validation` a 400, and
`unknownIds` is the reorder 400 that carries every id of `order` absent
from the store; `typeError` marks the unhandled-exception path.
-/

deriving instance DecidableEq for Except

namespace TodoApp

/-- A JSON-ish scalar value appearing in a request body. -/
inductive JVal
  | null
  | b (b : Bool)
  | i (n : Int)
  | s (s : String)
  deriving DecidableEq, Repr

/-- Python truthiness, `bool(x)`. -/
def pyBool : JVal → Bool
  | .null => false
  | .b b => b
  | .i n => n != 0
  | .s s => s != ""

/-- Python `int(x)`; `none` models the call raising (e.g. `int("abc")`). -/
def pyInt : JVal → Option Int
  | .null => none
  | .b b => some (if b then 1 else 0)
  | .i n => some n
  | .s s => s.toInt?

/-- A stored todo record, the dict built by `make_todo`. -/
structure Task where
  id : Nat
  title : String
  is_done : Bool
  priority : Int
  position : Nat
  deriving DecidableEq, Repr

/-- The module-level state: `TODOS` (in dict insertion order) and `NEXT_ID`. -/
structure Store where
  todos : List Task
  nextId : Nat
  deriving DecidableEq, Repr

/-- The state at import time: `TODOS = {}`, `NEXT_ID = 1`. -/
def Store.init : Store := ⟨[], 1⟩

/-- Lookup `TODOS.get(todo_id)` (a todo dict is never falsy, so `get_todo_or_404`
succeeds exactly when the key is present). -/
def Store.find (s : Store) (todo_id : Nat) : Option Task :=
  s.todos.find? (fun t => t.id == todo_id)

/-- Assignment `TODOS[t.id] = t`: overwrite in place when the key exists, else append. -/
def setTodo (todos : List Task) (t : Task) : List Task :=
  if todos.any (fun u => u.id == t.id) then
    todos.map (fun u => if u.id == t.id then t else u)
  else todos ++ [t]

/-- Helper `make_todo(title, is_done, priority)`: allocates the next id and
increments `NEXT_ID` (the increment happens before the field coercions
run, so it persists even when `int(priority)` raises, which is the
`none` result). -/
def make_todo (title : String) (is_done priority : JVal) (s : Store) :
    Option Task × Store :=
  let todo_id := s.nextId
  let s' : Store := { s with nextId := s.nextId + 1 }
  match pyInt priority with
  | some p =>
    (some { id := todo_id, title := title, is_done := pyBool is_done,
            priority := p, position := todo_id }, s')
  | none => (none, s')

/-- Error responses of the handlers. -/
inductive Err
  | notFound
  | validation
  | unknownIds (missing : List Nat)
  | typeError
  deriving DecidableEq, Repr

/-- One item of a create request body: `data.get("title")`,
`data.get("is_done", False)`, `data.get("priority", 1)`. -/
structure TodoItem where
  title : Option String := none
  is_done : JVal := .b false
  priority : JVal := .i 1
  deriving DecidableEq, Repr

/-- The `if not title` skip condition of the create paths. -/
def titleFalsy : Option String → Bool
  | none => true
  | some t => t == ""

/-- Handler for `POST /todos` (`create_todo`). -/
def create_todo (body : TodoItem) (s : Store) : Except Err Task × Store :=
  match body.title with
  | none => (.error .validation, s)
  | some title =>
    if title == "" then (.error .validation, s)
    else
      match make_todo title body.is_done body.priority s with
      | (some todo, s') => (.ok todo, { s' with todos := setTodo s'.todos todo })
      | (none, s') => (.error .typeError, s')

/-- The `for item in items` loop of `create_todos_bulk`, returning the
`created` list; a raising `int(priority)` aborts the request, keeping the
items already inserted. -/
def bulkCreate : List TodoItem → Store → Except Err (List Task) × Store
  | [], s => (.ok [], s)
  | item :: rest, s =>
    match item.title with
    | none => bulkCreate rest s
    | some title =>
      if title == "" then bulkCreate rest s
      else
        match make_todo title item.is_done item.priority s with
        | (some todo, s') =>
          let s'' : Store := { s' with todos := setTodo s'.todos todo }
          match bulkCreate rest s'' with
          | (.ok created, sf) => (.ok (todo :: created), sf)
          | (.error e, sf) => (.error e, sf)
        | (none, s') => (.error .typeError, s')

/-- The response body of `POST /todos/bulk`. -/
structure BulkResult where
  created : List Task
  count : Nat
  deriving DecidableEq, Repr

/-- Handler for `POST /todos/bulk` (`create_todos_bulk`), given an `items` list. -/
def create_todos_bulk (items : List TodoItem) (s : Store) :
    Except Err BulkResult × Store :=
  match bulkCreate items s with
  | (.ok created, s') => (.ok ⟨created, created.length⟩, s')
  | (.error e, s') => (.error e, s')

/-- Handler for `GET /todos?status=...` (`list_todos`): filter, then `list.sort` by
position (Python's sort is stable, as is `List.mergeSort`). -/
def list_todos (status : String) (s : Store) : List Task × Store :=
  let todos := s.todos
  let todos :=
    if status == "open" then todos.filter (fun t => !t.is_done)
    else if status == "done" then todos.filter (fun t => t.is_done)
    else todos
  (todos.mergeSort (fun a b => a.position ≤ b.position), s)

/-- The body of `PUT /todos/<id>`: which of the three required keys are
present, and their values. -/
structure ReplaceBody where
  title : Option String := none
  is_done : Option JVal := none
  priority : Option JVal := none
  deriving DecidableEq, Repr

/-- Handler for `PUT /todos/<id>` (`replace_todo`): requires all three fields, keeps the
existing position; `int(data["priority"])` raises before the store is
written, so `typeError` leaves the store unchanged. -/
def replace_todo (todo_id : Nat) (body : ReplaceBody) (s : Store) :
    Except Err Task × Store :=
  match s.find todo_id with
  | none => (.error .notFound, s)
  | some existing =>
    match body.title, body.is_done, body.priority with
    | some title, some d, some p =>
      match pyInt p with
      | some pr =>
        let updated : Task :=
          { id := todo_id, title := title, is_done := pyBool d,
            priority := pr, position := existing.position }
        (.ok updated, { s with todos := setTodo s.todos updated })
      | none => (.error .typeError, s)
    | _, _, _ => (.error .validation, s)

/-- Handler for `PUT /todos/<id>/status` (`put_todo_status`); the argument is the
`is_done` value when the key is present. -/
def put_todo_status (todo_id : Nat) (body : Option JVal) (s : Store) :
    Except Err Task × Store :=
  match s.find todo_id with
  | none => (.error .notFound, s)
  | some existing =>
    match body with
    | none => (.error .validation, s)
    | some d =>
      let updated : Task := { existing with is_done := pyBool d }
      (.ok updated, { s with todos := setTodo s.todos updated })

/-- The body of `PATCH /todos/<id>`: the recognized keys that are present. -/
structure PatchBody where
  title : Option String := none
  is_done : Option JVal := none
  priority : Option JVal := none
  deriving DecidableEq, Repr

/-- Handler for `PATCH /todos/<id>` (`patch_todo`).  The handler mutates the stored dict
in place field by field while iterating the set `allowed_fields`; this
embedding fixes the iteration order to the source's set-display order
`title`, `is_done`, `priority` (CPython set iteration order is
hash-dependent).  A raising `int(data["priority"])` therefore leaves the
already-applied field updates in the store. -/
def patch_todo (todo_id : Nat) (body : PatchBody) (s : Store) :
    Except Err Task × Store :=
  match s.find todo_id with
  | none => (.error .notFound, s)
  | some existing =>
    if body.title.isNone && body.is_done.isNone && body.priority.isNone then
      (.error .validation, s)
    else
      let t1 := match body.title with
                | some v => { existing with title := v }
                | none => existing
      let t2 := match body.is_done with
                | some v => { t1 with is_done := pyBool v }
                | none => t1
      match body.priority with
      | some v =>
        match pyInt v with
        | some pr =>
          let t3 := { t2 with priority := pr }
          (.ok t3, { s with todos := setTodo s.todos t3 })
        | none => (.error .typeError, { s with todos := setTodo s.todos t2 })
      | none => (.ok t2, { s with todos := setTodo s.todos t2 })

/-- The `for idx, tid in enumerate(order, start=1)` loop of
`reorder_todos`: sets `TODOS[tid]["position"] = idx` in sequence. -/
def applyOrder (todos : List Task) : List Nat → Nat → List Task
  | [], _ => todos
  | tid :: rest, idx =>
    applyOrder
      (todos.map (fun t => if t.id == tid then { t with position := idx } else t))
      rest (idx + 1)

/-- The `for t in remaining` loop of `reorder_todos`: walks the store in
dict order and gives each task not mentioned in `order` the next position,
starting at `pos`. -/
def applyRemaining : List Task → List Nat → Nat → List Task
  | [], _, _ => []
  | t :: rest, order, pos =>
    if t.id ∈ order then t :: applyRemaining rest order pos
    else { t with position := pos } :: applyRemaining rest order (pos + 1)

/-- Handler for `PATCH /todos/reorder` (`reorder_todos`), given an `order` list. -/
def reorder_todos (order : List Nat) (s : Store) :
    Except Err (List Task) × Store :=
  let missing := order.filter (fun tid => (s.find tid).isNone)
  if missing.isEmpty then
    let todos1 := applyOrder s.todos order 1
    let todos2 := applyRemaining todos1 order (order.length + 1)
    (.ok (todos2.mergeSort (fun a b => a.position ≤ b.position)),
     { s with todos := todos2 })
  else (.error (.unknownIds missing), s)

/-- Handler for `DELETE /todos/<id>` (`delete_todo`): `TODOS.pop(todo_id, None)`. -/
def delete_todo (todo_id : Nat) (s : Store) : Except Err Nat × Store :=
  match s.find todo_id with
  | none => (.error .notFound, s)
  | some _ =>
    (.ok todo_id, { s with todos := s.todos.filter (fun t => t.id != todo_id) })

/-- The response body of `DELETE /todos`. -/
structure DeleteManyResult where
  deleted_ids : List Nat
  completed_only : Bool
  deriving DecidableEq, Repr

/-- Handler for `DELETE /todos?completed_only=...` (`delete_many_todos`); the argument
is the raw query-parameter string (default `"false"`). -/
def delete_many_todos (completed_only_param : String) (s : Store) :
    DeleteManyResult × Store :=
  let completed_only := completed_only_param.toLower == "true"
  if completed_only then
    let to_delete := (s.todos.filter (fun t => t.is_done)).map (fun t => t.id)
    ({ deleted_ids := to_delete, completed_only := true },
     { s with todos := s.todos.filter (fun t => !decide (t.id ∈ to_delete)) })
  else
    ({ deleted_ids := s.todos.map (fun t => t.id), completed_only := false },
     { s with todos := [] })

/-! ### Concrete stores used by witnesses and counterexamples -/

/-- A one-task store, as after `create {title:"A"}` from the initial state. -/
def s1 : Store := ⟨[⟨1, "A", false, 1, 1⟩], 2⟩

/-- A three-task store, as after three creates from the initial state. -/
def s3 : Store :=
  ⟨[⟨1, "A", false, 1, 1⟩, ⟨2, "B", false, 1, 2⟩, ⟨3, "C", false, 1, 3⟩], 4⟩

/-- A store holding two completed tasks and one open task. -/
def sMix : Store :=
  ⟨[⟨1, "A", true, 1, 1⟩, ⟨2, "B", false, 1, 2⟩, ⟨3, "C", true, 1, 3⟩], 4⟩

/-! ### Helper lemmas -/

lemma mem_ids_of_find_isSome {s : Store} {tid : Nat}
    (h : (s.find tid).isSome) : tid ∈ s.todos.map (fun t => t.id) := by
  unfold Store.find at h
  rw [List.find?_isSome] at h
  obtain ⟨x, hx, hbeq⟩ := h
  exact List.mem_map.2 ⟨x, hx, beq_iff_eq.1 hbeq⟩

lemma find_isSome_of_mem_ids {s : Store} {tid : Nat}
    (h : tid ∈ s.todos.map (fun t => t.id)) : (s.find tid).isSome := by
  obtain ⟨x, hx, hid⟩ := List.mem_map.1 h
  unfold Store.find
  exact List.find?_isSome.2 ⟨x, hx, by simp [hid]⟩

/-- Sorting by position really sorts by position. -/
lemma pairwise_pos_mergeSort (l : List Task) :
    List.Pairwise (fun a b => a.position ≤ b.position)
      (l.mergeSort (fun a b => a.position ≤ b.position)) := by
  have h := @List.sorted_mergeSort Task
    (fun a b : Task => decide (a.position ≤ b.position))
    (fun a b c hab hbc =>
      decide_eq_true (le_trans (of_decide_eq_true hab) (of_decide_eq_true hbc)))
    (fun a b => by
      simpa [Bool.or_eq_true, decide_eq_true_eq] using Nat.le_total a.position b.position)
    l
  exact h.imp (fun hab => of_decide_eq_true hab)

/-! ### C1: reorder with unknown ids fails atomically -/

/-- C1: if any id in `order` is absent from the store, `reorder_todos` fails
with the validation error listing every unknown id, and returns the store
unchanged (so every task keeps every field). -/
theorem reorder_unknown_ids_atomic (s : Store) (order : List Nat)
    (h : ∃ tid ∈ order, s.find tid = none) :
    ∃ missing, reorder_todos order s = (.error (.unknownIds missing), s) ∧
      ∀ tid ∈ order, s.find tid = none → tid ∈ missing := by
  obtain ⟨tid, hmem, hnone⟩ := h
  refine ⟨order.filter (fun t => (s.find t).isNone), ?_, ?_⟩
  · have hne : order.filter (fun t => (s.find t).isNone) ≠ [] :=
      List.ne_nil_of_mem (List.mem_filter.2 ⟨hmem, by simp [hnone]⟩)
    simp only [reorder_todos]
    rw [if_neg (by simpa [List.isEmpty_iff] using hne)]
  · intro t ht htn
    exact List.mem_filter.2 ⟨ht, by simp [htn]⟩

theorem reorder_unknown_ids_atomic_w :
    ∃ missing, reorder_todos [9] s1 = (.error (.unknownIds missing), s1) ∧
      ∀ tid ∈ ([9] : List Nat), s1.find tid = none → tid ∈ missing :=
  reorder_unknown_ids_atomic s1 [9] ⟨9, by decide, by decide⟩

/-! ### C8: deleteMany -/

/-- C8: `delete_many_todos` never fails: with `completed_only=true` it
removes exactly the tasks with `is_done = true` and returns their ids,
keeping every other task (hence its id, position and all fields)
unchanged; otherwise it removes every task and returns all previously
existing ids; an empty store yields an empty result.  The id-uniqueness
hypothesis is the store invariant. -/
theorem delete_many_spec (p : String) (s : Store)
    (hnd : (s.todos.map (fun t => t.id)).Nodup) :
    (p.toLower = "true" →
      delete_many_todos p s =
        ({ deleted_ids := (s.todos.filter (fun t => t.is_done)).map (fun t => t.id),
           completed_only := true },
         { s with todos := s.todos.filter (fun t => !t.is_done) })) ∧
    (p.toLower ≠ "true" →
      delete_many_todos p s =
        ({ deleted_ids := s.todos.map (fun t => t.id), completed_only := false },
         { s with todos := [] })) ∧
    (s.todos = [] → (delete_many_todos p s).1.deleted_ids = []) := by
  have key : s.todos.filter
      (fun t => !decide
        (t.id ∈ (s.todos.filter (fun t => t.is_done)).map (fun t => t.id)))
      = s.todos.filter (fun t => !t.is_done) := by
    apply List.filter_congr
    intro x hx
    have hmem : (decide
        (x.id ∈ (s.todos.filter (fun t => t.is_done)).map (fun t => t.id)))
        = x.is_done := by
      by_cases hd : x.is_done
      · simp only [hd, decide_eq_true_eq]
        exact List.mem_map.2 ⟨x, List.mem_filter.2 ⟨hx, hd⟩, rfl⟩
      · have hd' : x.is_done = false := by simpa using hd
        rw [hd', decide_eq_false_iff_not]
        intro hm
        obtain ⟨u, hu, hid⟩ := List.mem_map.1 hm
        have hux : u = x :=
          List.inj_on_of_nodup_map hnd (List.mem_of_mem_filter hu) hx hid
        exact absurd (hux ▸ (List.mem_filter.1 hu).2) (by simp [hd'])
    rw [hmem]
  refine ⟨?_, ?_, ?_⟩
  · intro h
    have hb : (p.toLower == "true") = true := by simp [h]
    simp only [delete_many_todos, hb, if_true, key]
  · intro h
    have hb : (p.toLower == "true") = false := by simp [h]
    simp only [delete_many_todos, hb, Bool.false_eq_true, if_false]
  · intro h
    by_cases hb : (p.toLower == "true") = true
    · simp [delete_many_todos, hb, h]
    · simp [delete_many_todos, hb, h]

theorem delete_many_spec_w :
    (("true" : String).toLower = "true" →
      delete_many_todos "true" sMix =
        ({ deleted_ids := (sMix.todos.filter (fun t => t.is_done)).map (fun t => t.id),
           completed_only := true },
         { sMix with todos := sMix.todos.filter (fun t => !t.is_done) })) ∧
    (("true" : String).toLower ≠ "true" →
      delete_many_todos "true" sMix =
        ({ deleted_ids := sMix.todos.map (fun t => t.id), completed_only := false },
         { sMix with todos := [] })) ∧
    (sMix.todos = [] → (delete_many_todos "true" sMix).1.deleted_ids = []) :=
  delete_many_spec "true" sMix (by decide)

/-! ### C9: list filters by status and sorts by position -/

/-- C9: `list_todos` returns exactly the open tasks for `"open"`, exactly
the done tasks for `"done"`, and all tasks for any other value, sorted
ascending by position, and it leaves the store unchanged. -/
theorem list_todos_spec (status : String) (s : Store) :
    (list_todos status s).2 = s ∧
    List.Pairwise (fun a b => a.position ≤ b.position) (list_todos status s).1 ∧
    (status = "open" →
      (list_todos status s).1.Perm (s.todos.filter (fun t => !t.is_done))) ∧
    (status = "done" →
      (list_todos status s).1.Perm (s.todos.filter (fun t => t.is_done))) ∧
    (status ≠ "open" → status ≠ "done" → (list_todos status s).1.Perm s.todos) := by
  refine ⟨rfl, ?_, ?_, ?_, ?_⟩
  · simp only [list_todos]
    exact pairwise_pos_mergeSort _
  · intro h
    subst h
    simpa only [list_todos, if_pos] using List.mergeSort_perm _ _
  · intro h
    subst h
    have h1 : (("done" : String) == "open") = false := by decide
    simpa only [list_todos, h1, Bool.false_eq_true, if_false, if_pos]
      using List.mergeSort_perm _ _
  · intro h1 h2
    have hb1 : (status == "open") = false := by simp [h1]
    have hb2 : (status == "done") = false := by simp [h2]
    simpa only [list_todos, hb1, hb2, Bool.false_eq_true, if_false]
      using List.mergeSort_perm _ _

theorem list_todos_spec_w :
    (list_todos "open" sMix).2 = sMix ∧
    List.Pairwise (fun a b => a.position ≤ b.position) (list_todos "open" sMix).1 ∧
    ("open" = "open" →
      (list_todos "open" sMix).1.Perm (sMix.todos.filter (fun t => !t.is_done))) ∧
    ("open" = "done" →
      (list_todos "open" sMix).1.Perm (sMix.todos.filter (fun t => t.is_done))) ∧
    ("open" ≠ "open" → "open" ≠ "done" → (list_todos "open" sMix).1.Perm sMix.todos) :=
  list_todos_spec "open" sMix

/-! ### C10: creation coerces is_done and priority like patch does -/

/-- C10: `create_todo` and `create_todos_bulk` coerce the supplied
`is_done` with Python truthiness (so the non-empty string "false" is
stored as `true`) and the supplied `priority` with `int(...)`; the stored
task carries the coerced boolean and integer. -/
theorem create_coerces (s : Store) (title : String) (d p : JVal) (v : Int)
    (ht : title ≠ "") (hp : pyInt p = some v) :
    (∃ t, (create_todo ⟨some title, d, p⟩ s).1 = .ok t ∧
      t.title = title ∧ t.is_done = pyBool d ∧ t.priority = v) ∧
    (∃ br, (create_todos_bulk [⟨some title, d, p⟩] s).1 = .ok br ∧
      ∃ t, br.created = [t] ∧ t.is_done = pyBool d ∧ t.priority = v) ∧
    pyBool (.s "false") = true := by
  have hbeq : (title == "") = false := by simp [ht]
  refine ⟨?_, ?_, by decide⟩
  · simp [create_todo, make_todo, hbeq, hp]
  · simp [create_todos_bulk, bulkCreate, make_todo, hbeq, hp]

theorem create_coerces_w :
    (∃ t, (create_todo ⟨some "T", .s "false", .b true⟩ Store.init).1 = .ok t ∧
      t.title = "T" ∧ t.is_done = pyBool (.s "false") ∧ t.priority = 1) ∧
    (∃ br, (create_todos_bulk [⟨some "T", .s "false", .b true⟩] Store.init).1 = .ok br ∧
      ∃ t, br.created = [t] ∧ t.is_done = pyBool (.s "false") ∧ t.priority = 1) ∧
    pyBool (.s "false") = true :=
  create_coerces Store.init "T" (.s "false") (.b true) 1 (by decide) (by decide)

/-! ### C4: single-entity mutations and failure atomicity -/

/-- C4 counterexample: `patch` with a valid `title` and an uncoercible
`priority` (JSON null: `int(None)` raises) crashes with an unhandled
exception after the title was already mutated in place, so the store is
not as it was before the call. -/
theorem patch_partial_on_crash_cex :
    (patch_todo 1 ⟨some "x", none, some .null⟩ s1).1 = .error .typeError ∧
    (patch_todo 1 ⟨some "x", none, some .null⟩ s1).2 ≠ s1 ∧
    ((patch_todo 1 ⟨some "x", none, some .null⟩ s1).2.find 1).map (fun t => t.title)
      = some "x" := by decide

/-- C4 (amended): whenever `replace`, `setStatus`, `patch` or `delete`
fails with one of the spec's error kinds (`NotFoundError` or
`ValidationError`, i.e. anything but the unhandled-exception path), the
store — the targeted task and all others — is exactly as before the
call. -/
theorem mutation_error_atomic (s : Store) (e : Err) (he : e ≠ .typeError) :
    (∀ id0 body, (replace_todo id0 body s).1 = .error e →
      (replace_todo id0 body s).2 = s) ∧
    (∀ id0 body, (put_todo_status id0 body s).1 = .error e →
      (put_todo_status id0 body s).2 = s) ∧
    (∀ id0 body, (patch_todo id0 body s).1 = .error e →
      (patch_todo id0 body s).2 = s) ∧
    (∀ id0, (delete_todo id0 s).1 = .error e → (delete_todo id0 s).2 = s) := by
  refine ⟨?_, ?_, ?_, ?_⟩
  · intro id0 body h
    rcases body with ⟨bt, bd, bp⟩
    simp only [replace_todo] at h ⊢
    cases hf : s.find id0 with
    | none => simp [hf]
    | some ex =>
      simp only [hf] at h ⊢
      cases bt <;> cases bd <;> cases bp <;> simp_all
      case some.some.some d p =>
        cases hp : pyInt p with
        | none => simp [hp]
        | some v => simp [hp] at h
  · intro id0 body h
    simp only [put_todo_status] at h ⊢
    cases hf : s.find id0 with
    | none => simp [hf]
    | some ex =>
      simp only [hf] at h ⊢
      cases body with
      | none => simp
      | some d => simp at h
  · intro id0 body h
    rcases body with ⟨bt, bd, bp⟩
    simp only [patch_todo] at h ⊢
    cases hf : s.find id0 with
    | none => simp [hf]
    | some ex =>
      simp only [hf] at h ⊢
      by_cases hall : (bt.isNone && bd.isNone && bp.isNone) = true
      · simp [hall]
      · simp only [hall, Bool.false_eq_true, if_false] at h ⊢
        cases bp with
        | none => simp at h
        | some v =>
          cases hp : pyInt v with
          | none =>
            simp only [hp] at h
            exact absurd (Except.error.inj h).symm he
          | some pr => simp [hp] at h
  · intro id0 h
    simp only [delete_todo] at h ⊢
    cases hf : s.find id0 with
    | none => simp [hf]
    | some ex => simp [hf] at h

theorem mutation_error_atomic_w :
    (replace_todo 9 ⟨some "t", some (.b true), some (.i 2)⟩ s1).2 = s1 :=
  (mutation_error_atomic s1 .notFound (by decide)).1 9
    ⟨some "t", some (.b true), some (.i 2)⟩ (by decide)

/-! ### C6: replace / setStatus / patch touch only the fields they must -/

lemma setTodo_eq_map {todos : List Task} {t' : Task} {u : Task}
    (hu : u ∈ todos) (hid : u.id = t'.id) :
    setTodo todos t' = todos.map (fun w => if w.id == t'.id then t' else w) := by
  unfold setTodo
  rw [if_pos (List.any_eq_true.2 ⟨u, hu, by simp [hid]⟩)]

lemma find_mem_and_id {s : Store} {id0 : Nat} {t : Task}
    (hfind : s.find id0 = some t) : t ∈ s.todos ∧ t.id = id0 := by
  have h' : s.todos.find? (fun x => x.id == id0) = some t := hfind
  have hp := List.find?_some h'
  exact ⟨List.mem_of_find?_eq_some h', by simpa using hp⟩

/-- C6: on an existing task and valid arguments, `replace` overwrites
`title`, `is_done`, `priority` but keeps `id` and `position`; `setStatus`
changes only `is_done`; `patch` changes only the recognized fields that
are present, every unsupplied field keeping its previous value; in all
cases every other task in the store is untouched (the store is the
pointwise map replacing just the targeted id). -/
theorem update_frame (s : Store) (id0 : Nat) (t : Task)
    (hfind : s.find id0 = some t) :
    (∀ (title : String) (d p : JVal) (v : Int), pyInt p = some v →
      replace_todo id0 ⟨some title, some d, some p⟩ s =
        (.ok { id := id0, title := title, is_done := pyBool d, priority := v,
               position := t.position },
         { s with todos := s.todos.map (fun u => if u.id == id0 then
             { id := id0, title := title, is_done := pyBool d, priority := v,
               position := t.position } else u) })) ∧
    (∀ d : JVal, put_todo_status id0 (some d) s =
        (.ok { t with is_done := pyBool d },
         { s with todos := s.todos.map (fun u => if u.id == id0 then
             { t with is_done := pyBool d } else u) })) ∧
    (∀ (ti : Option String) (di : Option JVal) (p : JVal) (v : Int),
      pyInt p = some v →
      patch_todo id0 ⟨ti, di, some p⟩ s =
        (.ok { t with title := ti.getD t.title,
                      is_done := (di.map pyBool).getD t.is_done,
                      priority := v },
         { s with todos := s.todos.map (fun u => if u.id == id0 then
             { t with title := ti.getD t.title,
                      is_done := (di.map pyBool).getD t.is_done,
                      priority := v }
             else u) })) ∧
    (∀ (ti : Option String) (di : Option JVal), ti ≠ none ∨ di ≠ none →
      patch_todo id0 ⟨ti, di, none⟩ s =
        (.ok { t with title := ti.getD t.title,
                      is_done := (di.map pyBool).getD t.is_done },
         { s with todos := s.todos.map (fun u => if u.id == id0 then
             { t with title := ti.getD t.title,
                      is_done := (di.map pyBool).getD t.is_done }
             else u) })) := by
  obtain ⟨hmem, hid⟩ := find_mem_and_id hfind
  have hset : ∀ t' : Task, t'.id = id0 →
      setTodo s.todos t' = s.todos.map (fun u => if u.id == id0 then t' else u) := by
    intro t' h'
    unfold setTodo
    rw [if_pos (List.any_eq_true.2 ⟨t, hmem, by simp [hid, h']⟩)]
    simp only [h']
  refine ⟨?_, ?_, ?_, ?_⟩
  · intro title d p v hp
    simp only [replace_todo, hfind, hp]
    rw [hset]
    simp [hid]
  · intro d
    simp only [put_todo_status, hfind]
    rw [hset]
    simp [hid]
  · intro ti di p v hp
    rcases ti with _ | tv <;> rcases di with _ | dv <;>
    · simp only [patch_todo, hfind, Option.isNone_some, Option.isNone_none,
        Bool.true_and, Bool.and_true, Bool.false_and, Bool.and_false,
        Bool.and_self, Bool.false_eq_true, if_false, hp]
      rw [hset] <;> simp [hid]
  · intro ti di hne
    rcases ti with _ | tv <;> rcases di with _ | dv
    · rcases hne with h | h <;> simp at h
    all_goals
      simp only [patch_todo, hfind, Option.isNone_some, Option.isNone_none,
        Bool.true_and, Bool.and_true, Bool.false_and, Bool.and_false,
        Bool.and_self, Bool.false_eq_true, if_false]
      rw [hset] <;> simp [hid]

theorem update_frame_w :
    replace_todo 1 ⟨some "N", some (.b true), some (.i 5)⟩ s1 =
      (.ok { id := 1, title := "N", is_done := pyBool (.b true), priority := 5,
             position := (⟨1, "A", false, 1, 1⟩ : Task).position },
       { s1 with todos := s1.todos.map (fun u => if u.id == 1 then
           { id := 1, title := "N", is_done := pyBool (.b true), priority := 5,
             position := (⟨1, "A", false, 1, 1⟩ : Task).position } else u) }) :=
  (update_frame s1 1 ⟨1, "A", false, 1, 1⟩ (by decide)).1 "N" (.b true) (.i 5) 5 rfl

/-! ### C7: bulk create validates items independently -/

/-- The negation of the skip condition: items that actually get created. -/
def validItem (it : TodoItem) : Bool := !titleFalsy it.title

lemma bulkCreate_spec (items : List TodoItem) :
    ∀ s : Store, (∀ it ∈ items, (pyInt it.priority).isSome = true) →
    ∃ created sf, bulkCreate items s = (.ok created, sf) ∧
      created.map (fun t => t.title)
        = (items.filter validItem).map (fun it => it.title.getD "") ∧
      created.map (fun t => t.is_done)
        = (items.filter validItem).map (fun it => pyBool it.is_done) ∧
      created.map (fun t => t.priority)
        = (items.filter validItem).map (fun it => (pyInt it.priority).getD 0) ∧
      created.map (fun t => t.id) = List.range' s.nextId created.length ∧
      sf.nextId = s.nextId + created.length := by
  induction items with
  | nil =>
    intro s _
    exact ⟨[], s, rfl, rfl, rfl, rfl, rfl, rfl⟩
  | cons item rest ih =>
    intro s h
    have hrest := fun it hit => h it (List.mem_cons_of_mem _ hit)
    rcases hth : item.title with _ | tv
    · obtain ⟨created, sf, heq, h1, h2, h3, h4, h5⟩ := ih s hrest
      exact ⟨created, sf, by simp [bulkCreate, hth, heq],
        by simp [validItem, titleFalsy, hth, h1],
        by simp [validItem, titleFalsy, hth, h2],
        by simp [validItem, titleFalsy, hth, h3], h4, h5⟩
    · by_cases hte : (tv == "") = true
      · obtain ⟨created, sf, heq, h1, h2, h3, h4, h5⟩ := ih s hrest
        exact ⟨created, sf, by simp [bulkCreate, hth, hte, heq],
          by simp [validItem, titleFalsy, hth, beq_iff_eq.1 hte, h1],
          by simp [validItem, titleFalsy, hth, beq_iff_eq.1 hte, h2],
          by simp [validItem, titleFalsy, hth, beq_iff_eq.1 hte, h3], h4, h5⟩
      · obtain ⟨v, hv⟩ := Option.isSome_iff_exists.1 (h item (by simp))
        set todo : Task :=
          { id := s.nextId, title := tv, is_done := pyBool item.is_done,
            priority := v, position := s.nextId } with htodo
        set s2 : Store :=
          { todos := setTodo s.todos todo, nextId := s.nextId + 1 } with hs2
        obtain ⟨created, sf, heq, h1, h2, h3, h4, h5⟩ := ih s2 hrest
        refine ⟨todo :: created, sf, ?_, ?_, ?_, ?_, ?_, ?_⟩
        · simp [bulkCreate, hth, hte, make_todo, hv, ← hs2, heq]
        · simpa [validItem, titleFalsy, hth, hte, htodo] using h1
        · simpa [validItem, titleFalsy, hth, hte, htodo] using h2
        · simpa [validItem, titleFalsy, hth, hte, htodo, hv] using h3
        · have : s2.nextId = s.nextId + 1 := rfl
          simp only [List.map_cons, List.length_cons, h4, this,
            List.range'_succ, htodo]
        · simp only [h5, List.length_cons]
          have : s2.nextId = s.nextId + 1 := rfl
          omega
  -- (the `set` keeps the created task and intermediate store readable)

/-- C7: `create_todos_bulk` validates each item independently: items with a
missing or empty title are skipped without failing the batch, the valid
items are created in input order (with their coerced fields), and the
returned count equals the length of the returned created list. -/
theorem bulk_create_skips_invalid (items : List TodoItem) (s : Store)
    (h : ∀ it ∈ items, (pyInt it.priority).isSome = true) :
    ∃ br, (create_todos_bulk items s).1 = .ok br ∧
      br.count = br.created.length ∧
      br.created.map (fun t => t.title)
        = (items.filter validItem).map (fun it => it.title.getD "") ∧
      br.created.map (fun t => t.is_done)
        = (items.filter validItem).map (fun it => pyBool it.is_done) ∧
      br.created.map (fun t => t.priority)
        = (items.filter validItem).map (fun it => (pyInt it.priority).getD 0) := by
  obtain ⟨created, sf, heq, h1, h2, h3, _, _⟩ := bulkCreate_spec items s h
  exact ⟨⟨created, created.length⟩, by simp [create_todos_bulk, heq], rfl, h1, h2, h3⟩

theorem bulk_create_skips_invalid_w :
    ∃ br, (create_todos_bulk
        [⟨some "P", .b false, .i 1⟩, ⟨none, .b false, .i 1⟩,
         ⟨some "", .b false, .i 1⟩, ⟨some "Q", .i 7, .b true⟩] Store.init).1 = .ok br ∧
      br.count = br.created.length ∧
      br.created.map (fun t => t.title)
        = (([⟨some "P", .b false, .i 1⟩, ⟨none, .b false, .i 1⟩,
             ⟨some "", .b false, .i 1⟩, ⟨some "Q", .i 7, .b true⟩] :
            List TodoItem).filter validItem).map (fun it => it.title.getD "") ∧
      br.created.map (fun t => t.is_done)
        = (([⟨some "P", .b false, .i 1⟩, ⟨none, .b false, .i 1⟩,
             ⟨some "", .b false, .i 1⟩, ⟨some "Q", .i 7, .b true⟩] :
            List TodoItem).filter validItem).map (fun it => pyBool it.is_done) ∧
      br.created.map (fun t => t.priority)
        = (([⟨some "P", .b false, .i 1⟩, ⟨none, .b false, .i 1⟩,
             ⟨some "", .b false, .i 1⟩, ⟨some "Q", .i 7, .b true⟩] :
            List TodoItem).filter validItem).map (fun it => (pyInt it.priority).getD 0) :=
  bulk_create_skips_invalid _ Store.init (by decide)

/-! ### C2: id allocation across operation sequences -/

/-- A task-creating or deleting operation, with its request body. -/
inductive Op
  | create (body : TodoItem)
  | createMany (items : List TodoItem)
  | del (id : Nat)
  deriving DecidableEq, Repr

/-- An operation whose priority coercions succeed (no unhandled
`int(...)` exception in `make_todo`). -/
def Op.coercible : Op → Bool
  | .create body => (pyInt body.priority).isSome
  | .createMany items => items.all (fun it => (pyInt it.priority).isSome)
  | .del _ => true

/-- Run one operation, returning the updated store and the ids of the
tasks it created (in creation order). -/
def runOp : Op → Store → Store × List Nat
  | .create body, s =>
    match create_todo body s with
    | (.ok t, s') => (s', [t.id])
    | (.error _, s') => (s', [])
  | .createMany items, s =>
    match create_todos_bulk items s with
    | (.ok br, s') => (s', br.created.map (fun t => t.id))
    | (.error _, s') => (s', [])
  | .del i, s => ((delete_todo i s).2, [])

/-- Run a sequence of operations, collecting all created ids in order. -/
def runOps : List Op → Store → Store × List Nat
  | [], s => (s, [])
  | op :: rest, s =>
    let r := runOp op s
    let r' := runOps rest r.1
    (r'.1, r.2 ++ r'.2)

lemma runOp_ids (op : Op) (s : Store) (h : op.coercible = true) :
    (runOp op s).2 = List.range' s.nextId (runOp op s).2.length ∧
    (runOp op s).1.nextId = s.nextId + (runOp op s).2.length := by
  cases op with
  | create body =>
    rcases body with ⟨bt, bd, bp⟩
    simp only [Op.coercible] at h
    obtain ⟨v, hv⟩ := Option.isSome_iff_exists.1 h
    rcases bt with _ | tv
    · simp [runOp, create_todo]
    · by_cases hte : (tv == "") = true
      · simp [runOp, create_todo, hte]
      · simp [runOp, create_todo, hte, make_todo, hv, List.range']
  | createMany items =>
    simp only [Op.coercible, List.all_eq_true] at h
    obtain ⟨created, sf, heq, _, _, _, h4, h5⟩ :=
      bulkCreate_spec items s (fun it hit => h it hit)
    have hl : (created.map (fun t => t.id)).length = created.length :=
      List.length_map _ _
    simp only [runOp, create_todos_bulk, heq]
    rw [← hl] at h4 h5
    exact ⟨h4, h5⟩
  | del i =>
    cases hf : s.find i <;> simp [runOp, delete_todo, hf]

lemma runOps_ids (ops : List Op) :
    ∀ s : Store, (∀ op ∈ ops, op.coercible = true) →
    (runOps ops s).2 = List.range' s.nextId (runOps ops s).2.length ∧
    (runOps ops s).1.nextId = s.nextId + (runOps ops s).2.length := by
  induction ops with
  | nil => intro s _; exact ⟨rfl, rfl⟩
  | cons op rest ih =>
    intro s h
    obtain ⟨h1, h2⟩ := runOp_ids op s (h op (by simp))
    obtain ⟨h3, h4⟩ := ih (runOp op s).1 (fun o ho => h o (by simp [ho]))
    simp only [runOps, List.length_append]
    constructor
    · rw [h2] at h3
      rw [h1, h3]
      simp only [List.length_range']
      have happ := List.range'_append s.nextId (runOp op s).2.length
        (runOps rest (runOp op s).1).2.length 1
      rw [Nat.one_mul] at happ
      rw [happ, Nat.add_comm]
    · rw [h4, h2]
      omega

/-- C2: starting from the initial store, any sequence of create,
createMany and delete operations issues exactly the ids 1, 2, 3, ... in
creation order — unique, strictly increasing, contiguous (also within a
bulk create) — and the counter ends at 1 plus the number of created
tasks, i.e. it starts at 1, is incremented exactly once per created task
and is never decremented, reset or reused, even after deletions. -/
theorem ids_strictly_increasing (ops : List Op)
    (h : ∀ op ∈ ops, op.coercible = true) :
    (runOps ops Store.init).2 = List.range' 1 (runOps ops Store.init).2.length ∧
    (runOps ops Store.init).1.nextId = 1 + (runOps ops Store.init).2.length ∧
    (runOps ops Store.init).2.Nodup ∧
    List.Pairwise (fun a b => a < b) (runOps ops Store.init).2 := by
  obtain ⟨h1, h2⟩ := runOps_ids ops Store.init h
  refine ⟨h1, h2, ?_, ?_⟩
  · rw [h1]; exact List.nodup_range' _ _
  · rw [h1]; exact List.pairwise_lt_range' _ _

theorem ids_strictly_increasing_w :
    (runOps [.create ⟨some "A", .b false, .i 1⟩, .del 1,
             .create ⟨some "B", .b false, .i 1⟩] Store.init).2 =
      List.range' 1 (runOps [.create ⟨some "A", .b false, .i 1⟩, .del 1,
        .create ⟨some "B", .b false, .i 1⟩] Store.init).2.length ∧
    (runOps [.create ⟨some "A", .b false, .i 1⟩, .del 1,
             .create ⟨some "B", .b false, .i 1⟩] Store.init).1.nextId =
      1 + (runOps [.create ⟨some "A", .b false, .i 1⟩, .del 1,
        .create ⟨some "B", .b false, .i 1⟩] Store.init).2.length ∧
    (runOps [.create ⟨some "A", .b false, .i 1⟩, .del 1,
             .create ⟨some "B", .b false, .i 1⟩] Store.init).2.Nodup ∧
    List.Pairwise (fun a b => a < b)
      (runOps [.create ⟨some "A", .b false, .i 1⟩, .del 1,
               .create ⟨some "B", .b false, .i 1⟩] Store.init).2 :=
  ids_strictly_increasing _ (by decide)

/-! ### Reorder infrastructure (C3, C5)

The enumerate loop assigns `position = idx` at every occurrence of an id
in `order`, so the final position of a task mentioned in `order` is
determined by the last occurrence of its id; `lastIdxOf` computes that
index. -/

/-- Index of the last occurrence of `tid` in a list, if any. -/
def lastIdxOf : List Nat → Nat → Option Nat
  | [], _ => none
  | x :: xs, tid =>
    match lastIdxOf xs tid with
    | some j => some (j + 1)
    | none => if x == tid then some 0 else none

lemma lastIdxOf_eq_none {order : List Nat} {tid : Nat} (h : tid ∉ order) :
    lastIdxOf order tid = none := by
  induction order with
  | nil => rfl
  | cons x xs ih =>
    have h1 : tid ∉ xs := fun hm => h (List.mem_cons_of_mem _ hm)
    have h2 : (x == tid) = false := by
      simp only [beq_eq_false_iff_ne]
      exact fun he => h (he ▸ List.mem_cons_self x xs)
    simp [lastIdxOf, ih h1, h2]

lemma lastIdxOf_isSome_of_mem {order : List Nat} {tid : Nat} (h : tid ∈ order) :
    (lastIdxOf order tid).isSome = true := by
  induction order with
  | nil => simp at h
  | cons x xs ih =>
    rcases List.mem_cons.1 h with rfl | hm
    · cases hl : lastIdxOf xs tid <;> simp [lastIdxOf, hl]
    · cases hl : lastIdxOf xs tid with
      | none => have := ih hm; simp [hl] at this
      | some j => simp [lastIdxOf, hl]

lemma mem_of_lastIdxOf_isSome {order : List Nat} {tid : Nat}
    (h : (lastIdxOf order tid).isSome = true) : tid ∈ order := by
  by_contra hmem
  rw [lastIdxOf_eq_none hmem] at h
  simp at h

lemma lastIdxOf_getElem {order : List Nat} (h : order.Nodup)
    (i : Nat) (hi : i < order.length) : lastIdxOf order order[i] = some i := by
  induction order generalizing i with
  | nil => simp at hi
  | cons x xs ih =>
    rcases List.nodup_cons.1 h with ⟨hx, hxs⟩
    cases i with
    | zero =>
      simp only [List.getElem_cons_zero]
      simp [lastIdxOf, lastIdxOf_eq_none hx]
    | succ j =>
      have hj : j < xs.length := by simpa using hi
      have := ih hxs j hj
      simp only [List.getElem_cons_succ]
      simp [lastIdxOf, this]

/-- Lemma presenting `applyOrder` as a pointwise map: a task whose id occurs in `order`
gets the position derived from the id's last occurrence; all other tasks
and all other fields are untouched. -/
lemma applyOrder_eq (order : List Nat) :
    ∀ (todos : List Task) (idx : Nat),
      applyOrder todos order idx = todos.map (fun t =>
        match lastIdxOf order t.id with
        | some j => { t with position := idx + j }
        | none => t) := by
  induction order with
  | nil =>
    intro todos idx
    simp [applyOrder, lastIdxOf]
  | cons tid rest ih =>
    intro todos idx
    simp only [applyOrder]
    rw [ih, List.map_map]
    apply List.map_congr_left
    intro t _
    simp only [Function.comp]
    by_cases hid : t.id = tid
    · have hb : (t.id == tid) = true := by simp [hid]
      have hb2 : (tid == t.id) = true := by simp [hid]
      cases hl : lastIdxOf rest t.id with
      | some j =>
        simp only [hb, if_true, hl, lastIdxOf]
        have harith : idx + 1 + j = idx + (j + 1) := by omega
        rw [harith]
      | none => simp [hb, hl, lastIdxOf, hb2]
    · have hb : (t.id == tid) = false := by simp [hid]
      have hb2 : (tid == t.id) = false := by simp [Ne.symm hid]
      cases hl : lastIdxOf rest t.id with
      | some j =>
        simp only [hb, Bool.false_eq_true, if_false, hl, lastIdxOf]
        have harith : idx + 1 + j = idx + (j + 1) := by omega
        rw [harith]
      | none => simp [hb, hl, lastIdxOf, hb2]

lemma applyOrder_map_id (order : List Nat) (todos : List Task) (idx : Nat) :
    (applyOrder todos order idx).map (fun t => t.id) = todos.map (fun t => t.id) := by
  rw [applyOrder_eq, List.map_map]
  apply List.map_congr_left
  intro t _
  simp only [Function.comp]
  cases hl : lastIdxOf order t.id <;> simp [hl]

lemma applyOrder_pos_of_mem {order : List Nat} {todos : List Task} {idx : Nat}
    {t : Task} (ht : t ∈ applyOrder todos order idx)
    {j : Nat} (hj : lastIdxOf order t.id = some j) : t.position = idx + j := by
  rw [applyOrder_eq] at ht
  obtain ⟨u, _, hu⟩ := List.mem_map.1 ht
  cases hl : lastIdxOf order u.id with
  | some k =>
    rw [hl] at hu
    subst hu
    simp only at hj
    rw [hl] at hj
    simp only [Option.some.injEq] at hj
    simp [hj]
  | none =>
    rw [hl] at hu
    subst hu
    rw [hl] at hj
    cases hj
  -- (the projection `t.id` reduces to `u.id` in both branches)

lemma applyOrder_fun_id (order : List Nat) (idx : Nat) (x : Task) :
    (match lastIdxOf order x.id with
     | some j => { x with position := idx + j }
     | none => x).id = x.id := by
  cases lastIdxOf order x.id <;> rfl

lemma applyOrder_filter_in (order : List Nat) (todos : List Task) (idx : Nat) :
    (applyOrder todos order idx).filter (fun t => decide (t.id ∈ order)) =
      (todos.filter (fun t => decide (t.id ∈ order))).map (fun t =>
        match lastIdxOf order t.id with
        | some j => { t with position := idx + j }
        | none => t) := by
  rw [applyOrder_eq, List.filter_map]
  congr 1
  apply List.filter_congr
  intro x _
  simp only [Function.comp]
  rw [applyOrder_fun_id]

lemma applyOrder_filter_out (order : List Nat) (todos : List Task) (idx : Nat) :
    (applyOrder todos order idx).filter (fun t => !decide (t.id ∈ order)) =
      todos.filter (fun t => !decide (t.id ∈ order)) := by
  rw [applyOrder_eq, List.filter_map]
  have hpred : ∀ x ∈ todos,
      ((fun t : Task => !decide (t.id ∈ order)) ∘ (fun t : Task =>
        match lastIdxOf order t.id with
        | some j => { t with position := idx + j }
        | none => t)) x = !decide (x.id ∈ order) := by
    intro x _
    simp only [Function.comp]
    rw [applyOrder_fun_id]
  rw [List.filter_congr hpred]
  have hmap : ∀ x ∈ todos.filter (fun t : Task => !decide (t.id ∈ order)),
      (fun t : Task =>
        match lastIdxOf order t.id with
        | some j => { t with position := idx + j }
        | none => t) x = (fun a => a) x := by
    intro x hx
    have hni : x.id ∉ order := by
      have := (List.mem_filter.1 hx).2
      simpa using this
    simp [lastIdxOf_eq_none hni]
  rw [List.map_congr_left hmap, List.map_id']

lemma applyRemaining_map_id (order : List Nat) :
    ∀ (todos : List Task) (pos : Nat),
      (applyRemaining todos order pos).map (fun t => t.id)
        = todos.map (fun t => t.id) := by
  intro todos
  induction todos with
  | nil => intro pos; rfl
  | cons t rest ih =>
    intro pos
    by_cases hc : t.id ∈ order <;> simp [applyRemaining, hc, ih]

lemma applyRemaining_filter_in (order : List Nat) :
    ∀ (todos : List Task) (pos : Nat),
      (applyRemaining todos order pos).filter (fun t => decide (t.id ∈ order))
        = todos.filter (fun t => decide (t.id ∈ order)) := by
  intro todos
  induction todos with
  | nil => intro pos; rfl
  | cons t rest ih =>
    intro pos
    by_cases hc : t.id ∈ order <;> simp [applyRemaining, hc, ih]

lemma applyRemaining_filter_out_pos (order : List Nat) :
    ∀ (todos : List Task) (pos : Nat),
      ((applyRemaining todos order pos).filter
          (fun t => !decide (t.id ∈ order))).map (fun t => t.position)
        = List.range' pos
            ((todos.filter (fun t => !decide (t.id ∈ order))).length) := by
  intro todos
  induction todos with
  | nil => intro pos; rfl
  | cons t rest ih =>
    intro pos
    by_cases hc : t.id ∈ order
    · simp [applyRemaining, hc, ih]
    · simp [applyRemaining, hc, ih, List.range'_succ]

lemma applyRemaining_filter_out_id (order : List Nat) :
    ∀ (todos : List Task) (pos : Nat),
      ((applyRemaining todos order pos).filter
          (fun t => !decide (t.id ∈ order))).map (fun t => t.id)
        = (todos.filter (fun t => !decide (t.id ∈ order))).map (fun t => t.id) := by
  intro todos
  induction todos with
  | nil => intro pos; rfl
  | cons t rest ih =>
    intro pos
    by_cases hc : t.id ∈ order
    · simp [applyRemaining, hc, ih]
    · simp [applyRemaining, hc, ih]

/-- On a store containing every id of `order`, `reorder_todos` takes the
success branch. -/
lemma reorder_ok (order : List Nat) (s : Store)
    (hvalid : ∀ tid ∈ order, (s.find tid).isSome = true) :
    reorder_todos order s =
      (.ok ((applyRemaining (applyOrder s.todos order 1) order
          (order.length + 1)).mergeSort (fun a b => a.position ≤ b.position)),
       { s with
          todos := applyRemaining (applyOrder s.todos order 1) order
            (order.length + 1) }) := by
  have hm : order.filter (fun tid => (s.find tid).isNone) = [] :=
    List.filter_eq_nil_iff.2 (fun a ha => by
      have := hvalid a ha
      cases hf : s.find a
      · rw [hf] at this; simp at this
      · simp [hf])
  simp [reorder_todos, hm]

/-! ### C3: positions assigned by reorder -/

/-- C3 counterexample: with the duplicate-id order `[2,1,1]` on a
three-task store, the task with id 1 (mentioned at 0-based index 1) ends
with position 3, not index+1 = 2: the enumerate loop re-assigns at every
occurrence, so the last occurrence wins. -/
theorem reorder_positions_cex :
    ¬ (∀ (i : Nat) (hi : i < ([2, 1, 1] : List Nat).length),
        ((reorder_todos [2, 1, 1] s3).2.find (([2, 1, 1] : List Nat)[i])).map
          (fun t => t.position) = some (i + 1)) := by decide

/-- C3 (amended): after a successful reorder, each task mentioned in
`order` gets `position = i + 1` where `i` is the last occurrence of its
id in `order` (for duplicate-free orders this is the task's index);
tasks not mentioned get consecutive positions starting at
`order.length + 1` in the store's deterministic iteration order (their
ids appear in unchanged store order); and the returned value is the full
task set sorted ascending by the resulting position. -/
theorem reorder_positions (order : List Nat) (s : Store)
    (hvalid : ∀ tid ∈ order, (s.find tid).isSome = true) :
    (∀ (i : Nat) (hi : i < order.length), lastIdxOf order order[i] = some i →
      ∃ t, (reorder_todos order s).2.find order[i] = some t ∧
        t.position = i + 1) ∧
    (((reorder_todos order s).2.todos.filter
        (fun t => !decide (t.id ∈ order))).map (fun t => t.position)
      = List.range' (order.length + 1)
          ((s.todos.filter (fun t => !decide (t.id ∈ order))).length)) ∧
    (((reorder_todos order s).2.todos.filter
        (fun t => !decide (t.id ∈ order))).map (fun t => t.id)
      = (s.todos.filter (fun t => !decide (t.id ∈ order))).map (fun t => t.id)) ∧
    (∃ res, (reorder_todos order s).1 = .ok res ∧
      res.Perm (reorder_todos order s).2.todos ∧
      List.Pairwise (fun a b => a.position ≤ b.position) res) := by
  rw [reorder_ok order s hvalid]
  refine ⟨?_, ?_, ?_, ?_⟩
  · intro i hi hlast
    have hvm := hvalid order[i] (List.getElem_mem hi)
    have hidchain : (applyRemaining (applyOrder s.todos order 1) order
        (order.length + 1)).map (fun t => t.id) = s.todos.map (fun t => t.id) := by
      rw [applyRemaining_map_id, applyOrder_map_id]
    have hmemid : order[i] ∈ (applyRemaining (applyOrder s.todos order 1) order
        (order.length + 1)).map (fun t => t.id) := by
      rw [hidchain]
      exact mem_ids_of_find_isSome hvm
    have hfs : ((⟨applyRemaining (applyOrder s.todos order 1) order
        (order.length + 1), s.nextId⟩ : Store).find order[i]).isSome = true :=
      find_isSome_of_mem_ids hmemid
    obtain ⟨t, hfind⟩ := Option.isSome_iff_exists.1 hfs
    have hfind' : List.find? (fun x => x.id == order[i])
        (applyRemaining (applyOrder s.todos order 1) order (order.length + 1))
        = some t := hfind
    have ht2 := List.mem_of_find?_eq_some hfind'
    have htid : t.id = order[i] := by simpa using List.find?_some hfind'
    have htmem : t ∈ (applyRemaining (applyOrder s.todos order 1) order
        (order.length + 1)).filter (fun t => decide (t.id ∈ order)) :=
      List.mem_filter.2 ⟨ht2, by
        rw [htid]
        simp only [decide_eq_true_eq]
        exact List.getElem_mem hi⟩
    rw [applyRemaining_filter_in] at htmem
    have ht1 := List.mem_of_mem_filter htmem
    have hpos := applyOrder_pos_of_mem ht1
      (show lastIdxOf order t.id = some i by rw [htid]; exact hlast)
    exact ⟨t, hfind, by omega⟩
  · show ((applyRemaining (applyOrder s.todos order 1) order
        (order.length + 1)).filter (fun t => !decide (t.id ∈ order))).map
        (fun t => t.position) = _
    rw [applyRemaining_filter_out_pos, applyOrder_filter_out]
  · show ((applyRemaining (applyOrder s.todos order 1) order
        (order.length + 1)).filter (fun t => !decide (t.id ∈ order))).map
        (fun t => t.id) = _
    rw [applyRemaining_filter_out_id, applyOrder_filter_out]
  · exact ⟨_, rfl, List.mergeSort_perm _ _, pairwise_pos_mergeSort _⟩

theorem reorder_positions_w :
    ((reorder_todos [2, 1] s3).2.todos.filter
        (fun t => !decide (t.id ∈ ([2, 1] : List Nat)))).map (fun t => t.position)
      = List.range' (([2, 1] : List Nat).length + 1)
          ((s3.todos.filter
            (fun t => !decide (t.id ∈ ([2, 1] : List Nat)))).length) :=
  (reorder_positions [2, 1] s3 (by decide)).2.1

/-! ### C5: positions after reorder are contiguous -/

/-- C5 counterexample: the order `[2,1,1]` (repeated id 1) on a
three-task store succeeds, yet the resulting positions are
`[3, 1, 4]` — a gap at 2 — so they are not a permutation of `1..3`. -/
theorem reorder_contiguous_cex :
    ((reorder_todos [2, 1, 1] s3).1.toOption.isSome = true) ∧
    ¬ (((reorder_todos [2, 1, 1] s3).2.todos.map (fun t => t.position)).Perm
        (List.range' 1 s3.todos.length)) := by decide

/-- C5 (amended): after any successful reorder whose `order` argument
contains no repeated ids, the positions of all tasks in the store form
exactly the contiguous range `1 .. n` (no gaps, no repeats), the
explicitly ordered tasks taking `1 .. order.length` and the unmentioned
tasks the rest. -/
theorem reorder_contiguous (order : List Nat) (s : Store)
    (hnd : (s.todos.map (fun t => t.id)).Nodup) (hord : order.Nodup)
    (hvalid : ∀ tid ∈ order, (s.find tid).isSome = true) :
    ((reorder_todos order s).2.todos.map (fun t => t.position)).Perm
      (List.range' 1 s.todos.length) := by
  rw [reorder_ok order s hvalid]
  show ((applyRemaining (applyOrder s.todos order 1) order
      (order.length + 1)).map (fun t => t.position)).Perm
      (List.range' 1 s.todos.length)
  set T1 := applyOrder s.todos order 1 with hT1
  set T2 := applyRemaining T1 order (order.length + 1) with hT2
  have hsplit := List.filter_append_perm (fun t : Task => decide (t.id ∈ order)) T2
  have hmapsplit :
      ((T2.filter (fun t => decide (t.id ∈ order))).map (fun t => t.position)
        ++ (T2.filter (fun t => !decide (t.id ∈ order))).map (fun t => t.position)).Perm
      (T2.map (fun t => t.position)) := by
    rw [← List.map_append]
    exact hsplit.map _
  have hPin : T2.filter (fun t => decide (t.id ∈ order))
      = (s.todos.filter (fun t => decide (t.id ∈ order))).map (fun t =>
          match lastIdxOf order t.id with
          | some j => { t with position := 1 + j }
          | none => t) := by
    rw [hT2, applyRemaining_filter_in, hT1, applyOrder_filter_in]
  have hPpos : (T2.filter (fun t => decide (t.id ∈ order))).map (fun t => t.position)
      = ((s.todos.filter (fun t => decide (t.id ∈ order))).map (fun t => t.id)).map
          (fun tid => match lastIdxOf order tid with
            | some j => 1 + j
            | none => 0) := by
    rw [hPin, List.map_map, List.map_map]
    apply List.map_congr_left
    intro x hx
    have hmemx : x.id ∈ order := by
      have := (List.mem_filter.1 hx).2
      simpa using this
    obtain ⟨j, hj⟩ := Option.isSome_iff_exists.1 (lastIdxOf_isSome_of_mem hmemx)
    simp only [Function.comp, hj]
  have hIdsFilter : (s.todos.filter (fun t => decide (t.id ∈ order))).map
        (fun t => t.id)
      = (s.todos.map (fun t => t.id)).filter (fun a => decide (a ∈ order)) := by
    rw [List.filter_map]
    rfl
  have hPerm_ids : ((s.todos.filter (fun t => decide (t.id ∈ order))).map
      (fun t => t.id)).Perm order := by
    rw [hIdsFilter]
    rw [List.perm_ext_iff_of_nodup (List.Nodup.filter _ hnd) hord]
    intro a
    simp only [List.mem_filter, decide_eq_true_eq]
    constructor
    · rintro ⟨_, ha⟩
      exact ha
    · intro ha
      exact ⟨mem_ids_of_find_isSome (hvalid a ha), ha⟩
  have hgmap : order.map (fun tid => match lastIdxOf order tid with
      | some j => 1 + j
      | none => 0) = List.range' 1 order.length := by
    apply List.ext_getElem
    · simp
    · intro i h1 h2
      rw [List.getElem_map]
      simp [lastIdxOf_getElem hord i (by simpa using h1), List.getElem_range']
  have hPperm : ((T2.filter (fun t => decide (t.id ∈ order))).map
      (fun t => t.position)).Perm (List.range' 1 order.length) := by
    rw [hPpos, ← hgmap]
    exact hPerm_ids.map _
  have hQ : (T2.filter (fun t => !decide (t.id ∈ order))).map (fun t => t.position)
      = List.range' (order.length + 1)
          ((s.todos.filter (fun t => !decide (t.id ∈ order))).length) := by
    rw [hT2, applyRemaining_filter_out_pos, hT1, applyOrder_filter_out]
  have hPlen : (s.todos.filter (fun t => decide (t.id ∈ order))).length
      = order.length := by
    have := hPerm_ids.length_eq
    simpa using this
  have hTotal : (s.todos.filter (fun t => decide (t.id ∈ order))).length
      + (s.todos.filter (fun t => !decide (t.id ∈ order))).length
      = s.todos.length := by
    have := (List.filter_append_perm
      (fun t : Task => decide (t.id ∈ order)) s.todos).length_eq
    simpa [List.length_append] using this
  have hcat : List.range' 1 order.length ++ List.range' (order.length + 1)
        ((s.todos.filter (fun t => !decide (t.id ∈ order))).length)
      = List.range' 1 s.todos.length := by
    have happ := List.range'_append 1 order.length
      ((s.todos.filter (fun t => !decide (t.id ∈ order))).length) 1
    rw [Nat.one_mul] at happ
    rw [show order.length + 1 = 1 + order.length by omega, happ]
    congr 1
    omega
  have step2 :
      ((T2.filter (fun t => decide (t.id ∈ order))).map (fun t => t.position)
        ++ (T2.filter (fun t => !decide (t.id ∈ order))).map
            (fun t => t.position)).Perm
      (List.range' 1 order.length ++ List.range' (order.length + 1)
        ((s.todos.filter (fun t => !decide (t.id ∈ order))).length)) := by
    rw [hQ]
    exact hPperm.append_right _
  exact hmapsplit.symm.trans (step2.trans (by rw [hcat]))

theorem reorder_contiguous_w :
    ((reorder_todos [2, 1] s3).2.todos.map (fun t => t.position)).Perm
      (List.range' 1 s3.todos.length) :=
  reorder_contiguous [2, 1] s3 (by decide) (by decide) (by decide)

end TodoApp
